import Mathlib

/-!
Shallow embedding of `gazebo/gui/plot/IntrospectionCurveHandler.cc`.

The handler maps requested variable names (URIs) to sets of plot curves,
maintains a reference-counted introspection filter, and decodes batched
parameter updates into timestamped samples.

Modelling conventions:
* C++ `double` values are modelled as `ℚ` (all claims are about which field
  is selected and how samples are routed, not floating-point rounding).
* Plot curves are identified by a `Nat` id; weak-reference liveness is an
  explicit `alive : Nat → Bool` environment passed to each operation
  (the result of `weak_ptr::lock()` at call time).
* `std::map` / `std::set` are association lists / lists kept in sorted
  insertion form; iteration order is list order, matching the sorted
  iteration order of the C++ containers.
* The introspection client is external; its `Items()` enumeration is a
  fixed list parameter `items` (the sorted remote item set).
-/

/-! ## String helpers (byte/char level, ASCII assumption: 1 char = 1 byte) -/

/-- Models `p` being a prefix of `s` (`s.find(p) == 0` in C++). -/
def strStarts (p s : String) : Bool :=
  p.data.isPrefixOf s.data

/-- Occurrence of `pat` somewhere in `s`, on char lists (structural, so the
kernel can evaluate it). -/
def listInfix (pat : List Char) : List Char → Bool
  | [] => pat.isEmpty
  | c :: t => pat.isPrefixOf (c :: t) || listInfix pat t

/-- Models `s.find(pat) != std::string::npos` for nonempty `pat`. -/
def strContains (s pat : String) : Bool :=
  listInfix pat.data s.data

/-- Splits `s` at the first occurrence of `pat`, returning the part before
and the part after; `none` when `pat` does not occur. -/
def splitFirst (pat : List Char) : List Char → Option (List Char × List Char)
  | [] => if pat.isEmpty then some ([], []) else none
  | c :: t =>
    if pat.isPrefixOf (c :: t) then some ([], (c :: t).drop pat.length)
    else
      match splitFirst pat t with
      | some (a, b) => some (c :: a, b)
      | none => none

/-! ## URI model -/

/-- Modelled from the spec: the external URI component (`gazebo/common/URI`,
not under the sources provided) parses identifiers of the form
`scheme://path?query` with structural path equality and query strings. -/
structure URI where
  scheme : String
  path : String
  query : String
deriving DecidableEq

/-- Modelled from the spec: parsing `scheme://path?query`; an absent `?`
yields an empty query; empty scheme or path is invalid (`URI::Valid()`
false). Returns `none` for an invalid URI. -/
def parseURI (s : String) : Option URI :=
  match splitFirst ("://".data) s.data with
  | none => none
  | some (scheme, rest) =>
    if scheme.isEmpty then none
    else
      match splitFirst (['?']) rest with
      | none =>
        if rest.isEmpty then none
        else some ⟨String.mk scheme, String.mk rest, ""⟩
      | some (path, query) =>
        if path.isEmpty then none
        else some ⟨String.mk scheme, String.mk path, String.mk query⟩

/-- Models `common::URI uri(s); uri.Query().Str()`: the query string of a
parsed URI, empty for an unparseable string. -/
def queryOf (s : String) : String :=
  match parseURI s with
  | some u => u.query
  | none => ""

/-! ## Math and message types (external `ignition::math` / `gazebo::msgs`) -/

/-- Components of an `ignition::math::Vector3d`. -/
structure Vector3d where
  x : ℚ
  y : ℚ
  z : ℚ
deriving DecidableEq

/-- Components of an `ignition::math::Quaterniond`. -/
structure Quaterniond where
  w : ℚ
  x : ℚ
  y : ℚ
  z : ℚ
deriving DecidableEq

/-- An `ignition::math::Pose3d`: translation `pos` and rotation `rot`. -/
structure Pose3d where
  pos : Vector3d
  rot : Quaterniond
deriving DecidableEq

/-- The declared type tag of a `gazebo::msgs::Any` value; `OTHER` stands for
every tag not handled by the decode switch. -/
inductive AnyType where
  | DOUBLE
  | INT32
  | BOOLEAN
  | TIME
  | POSE3D
  | VECTOR3D
  | QUATERNIOND
  | OTHER
deriving DecidableEq

/-- A `gazebo::msgs::Any` value: a type tag plus optional type-specific
fields (proto2 `has_*` is `Option.isSome`). Time is `(sec, nsec)`. -/
structure AnyValue where
  type : AnyType
  double_value : Option ℚ := none
  int_value : Option Int := none
  bool_value : Option Bool := none
  time_value : Option (Int × Int) := none
  pose3d_value : Option Pose3d := none
  vector3d_value : Option Vector3d := none
  quaternion_value : Option Quaterniond := none
deriving DecidableEq

/-- One entry of a `gazebo::msgs::Param_V` batch: a name and an optional
value (`has_value`). -/
structure Param where
  name : String
  value : Option AnyValue := none
deriving DecidableEq

/-- Models `common::Time::Double()`: seconds plus nanoseconds over 1e9. -/
def timeDouble (t : Int × Int) : ℚ :=
  (t.1 : ℚ) + (t.2 : ℚ) / 1000000000

/-! ## Query decoders -/

/-- Models the `size_t` index expression `_query.size()-1` at line 632 of
the source: unsigned wrap-around arithmetic modulo `2^64`. For an empty
query it evaluates to `2^64 - 1`, which is out of bounds for
`std::string::substr` (requires `pos <= size()`). -/
def substrPos (s : String) : Nat :=
  (s.length + (2 ^ 64 - 1)) % 2 ^ 64

/-- `IntrospectionCurveHandler::Vector3dFromQuery`: selects the vector
component named by the last character of the query string. The C++
`_query.substr(_query.size()-1)` is modelled as dropping all but the last
character; for an empty query the C++ index is out of bounds (see
`substrPos`), while this total model returns `none` there. -/
def Vector3dFromQuery (q : String) (v : Vector3d) : Option ℚ :=
  let elem := String.mk (q.data.drop (q.data.length - 1))
  if elem = "x" then some v.x
  else if elem = "y" then some v.y
  else if elem = "z" then some v.z
  else none

/-- `IntrospectionCurveHandler::QuaterniondFromQuery`. The C++ body is

    if (roll)       value = euler.X();
    else if (pitch) value = euler.Y();
    if (yaw)        value = euler.Z();
    else            return false;
    return true;

the second `if` is not chained, so the final `else return false` belongs to
the yaw test alone: the function returns true exactly when the query
contains "yaw" (and then the value is always the Z angle, overwriting any
roll/pitch assignment); any query without "yaw" is reported invalid. The
Euler conversion of the external math library is the parameter `euler`. -/
def QuaterniondFromQuery (euler : Quaterniond → Vector3d) (q : String)
    (quat : Quaterniond) : Option ℚ :=
  let e := euler quat
  let _value : ℚ :=
    if strContains q "roll" then e.x
    else if strContains q "pitch" then e.y
    else 0
  if strContains q "yaw" then some e.z
  else none

/-! ## Handler state -/

/-- The mutable state of `IntrospectionCurveHandlerPrivate` relevant to the
claims: the variable-name → curve-set registry, the introspection filter,
and its per-item reference counts. -/
structure HandlerState where
  curves : List (String × List Nat)
  introspectFilter : List String
  introspectFilterCount : List (String × Int)
deriving DecidableEq

/-- The post-setup state produced by `SetupIntrospection`: an empty
registry and a filter holding only the sim-time variable with count 1. -/
def setupState (simTimeVar : String) : HandlerState :=
  { curves := []
    introspectFilter := [simTimeVar]
    introspectFilterCount := [(simTimeVar, 1)] }

/-! ## Filter reference counting -/

/-- Models `introspectFilterCount[item]` read access (`std::map::operator[]`
defaults to 0 for an absent key). -/
def countLookup (m : List (String × Int)) (k : String) : Int :=
  match m.lookup k with
  | some c => c
  | none => 0

/-- Models writing `introspectFilterCount[item] = v`: replace the entry if
present, otherwise insert it. -/
def countSet (k : String) (v : Int) : List (String × Int) → List (String × Int)
  | [] => [(k, v)]
  | e :: t => if e.1 = k then (k, v) :: t else e :: countSet k v t

/-- Models `introspectFilterCount.erase(item)`. -/
def countErase (k : String) (m : List (String × Int)) : List (String × Int) :=
  m.filter (fun e => e.1 != k)

/-- Sorted insertion into the `std::set<std::string>` filter. -/
def insertStrSorted (k : String) : List String → List String
  | [] => [k]
  | x :: t => if k < x then k :: x :: t else x :: insertStrSorted k t

/-- One remote item matches the requested URI `u` when the paths are equal
and the item's query is a string prefix of `u`'s query
(`itemQuery.Str().find(query.Str()) == 0`). -/
def matchesItem (u : URI) (item : String) : Bool :=
  match parseURI item with
  | some iu => decide (u.path = iu.path) && strStarts iu.query u.query
  | none => false

/-- The first remote item (in the sorted enumeration `items`) matching the
requested name; `none` when the name is an invalid URI or nothing
matches. This is the item both filter operations act on. -/
def resolveItem (items : List String) (name : String) : Option String :=
  match parseURI name with
  | none => none
  | some u => items.find? (matchesItem u)

/-- `IntrospectionCurveHandler::AddItemToFilter`: no-op for an invalid name
or when no remote item matches; otherwise inserts the first matching item
with count 1, or increments its count when already present. (The remote
`UpdateFilter` push is external, best-effort, and does not affect local
state.) -/
def AddItemToFilter (items : List String) (name : String)
    (st : HandlerState) : HandlerState :=
  match resolveItem items name with
  | none => st
  | some item =>
    if item ∈ st.introspectFilter then
      { st with introspectFilterCount :=
          (countSet item (countLookup st.introspectFilterCount item + 1)
            st.introspectFilterCount) }
    else
      { st with
          introspectFilter := insertStrSorted item st.introspectFilter,
          introspectFilterCount := countSet item 1 st.introspectFilterCount }

/-- `IntrospectionCurveHandler::RemoveItemFromFilter`: no-op for an invalid
name, no match, or a matching item not currently in the filter; otherwise
decrements its count and, at exactly zero, erases the item from both the
filter and the count map. -/
def RemoveItemFromFilter (items : List String) (name : String)
    (st : HandlerState) : HandlerState :=
  match resolveItem items name with
  | none => st
  | some item =>
    if item ∈ st.introspectFilter then
      let c := countLookup st.introspectFilterCount item - 1
      if c = 0 then
        { st with
            introspectFilter := st.introspectFilter.erase item,
            introspectFilterCount := countErase item st.introspectFilterCount }
      else
        { st with introspectFilterCount :=
            countSet item c st.introspectFilterCount }
    else st

/-! ## Curve registry -/

/-- Sorted insertion of a fresh registry entry (`std::map` keeps keys
sorted); only called when the key is absent. -/
def insertCurveEntry (name : String) (cs : List Nat) :
    List (String × List Nat) → List (String × List Nat)
  | [] => [(name, cs)]
  | e :: t => if name < e.1 then (name, cs) :: e :: t
              else e :: insertCurveEntry name cs t

/-- Adds curve `c` to the set of the existing entry `name`. -/
def updateCurveEntry (name : String) (c : Nat) :
    List (String × List Nat) → List (String × List Nat)
  | [] => []
  | e :: t => if e.1 = name then (e.1, e.2 ++ [c]) :: t
              else e :: updateCurveEntry name c t

/-- `IntrospectionCurveHandler::AddCurve`: no-op for a dead curve; creates
the entry and requests filter inclusion when the name is new; otherwise
adds the curve to the existing set only if not already present. -/
def AddCurve (items : List String) (alive : Nat → Bool) (name : String)
    (c : Nat) (st : HandlerState) : HandlerState :=
  if alive c = false then st
  else
    match st.curves.lookup name with
    | none =>
      AddItemToFilter items name
        { st with curves := insertCurveEntry name [c] st.curves }
    | some s =>
      if c ∈ s then st
      else { st with curves := updateCurveEntry name c st.curves }

/-- Scans the registry in iteration order for the first entry whose set
contains `c` and removes `c` from it; returns the new registry and, when
the set became empty (so the entry was erased), the erased entry's name. -/
def removeFromFirst (c : Nat) :
    List (String × List Nat) → List (String × List Nat) × Option String
  | [] => ([], none)
  | e :: t =>
    if c ∈ e.2 then
      let s := e.2.erase c
      if s = [] then (t, some e.1)
      else ((e.1, s) :: t, none)
    else
      let r := removeFromFirst c t
      (e :: r.1, r.2)

/-- `IntrospectionCurveHandler::RemoveCurve`: no-op for a dead curve;
removes the curve from the first entry containing it and, when that set
became empty, releases the corresponding filter item and erases the
entry. -/
def RemoveCurve (items : List String) (alive : Nat → Bool) (c : Nat)
    (st : HandlerState) : HandlerState :=
  if alive c = false then st
  else
    match removeFromFirst c st.curves with
    | (cs, some name) => RemoveItemFromFilter items name { st with curves := cs }
    | (cs, none) => { st with curves := cs }

/-! ## Update dispatcher -/

/-- Resolution of a parameter name to a registry entry: exact key match
first, otherwise the first registry key (in map order) of which the
parameter name is a string prefix (`cIt->first.find(paramName) == 0`). -/
def resolveCurve (curves : List (String × List Nat)) (paramName : String) :
    Option (String × List Nat) :=
  match curves.lookup paramName with
  | some s => some (paramName, s)
  | none => curves.find? (fun e => strStarts paramName e.1)

/-- The decode switch of `OnIntrospection`: extracts a scalar from the
value according to its declared type, using the registry key
`curveVarName` for field selection. `some d` means `validData` with value
`d`; `none` means the parameter is skipped. Note that the numeric cases
leave `validData` true when the type-specific field is absent, so they
yield `some 0` (the initial value of `data`). -/
def decodeValue (euler : Quaterniond → Vector3d) (curveVarName : String)
    (v : AnyValue) : Option ℚ :=
  match v.type with
  | .DOUBLE => some (match v.double_value with | some d => d | none => 0)
  | .INT32 => some (match v.int_value with | some i => (i : ℚ) | none => 0)
  | .BOOLEAN =>
    some (match v.bool_value with | some b => if b then 1 else 0 | none => 0)
  | .TIME => some (match v.time_value with | some t => timeDouble t | none => 0)
  | .POSE3D =>
    match v.pose3d_value with
    | some p =>
      let queryStr := queryOf curveVarName
      if strContains queryStr "position" then Vector3dFromQuery queryStr p.pos
      else if strContains queryStr "orientation" then
        QuaterniondFromQuery euler queryStr p.rot
      else none
    | none => none
  | .VECTOR3D =>
    match v.vector3d_value with
    | some vec => Vector3dFromQuery (queryOf curveVarName) vec
    | none => none
  | .QUATERNIOND =>
    match v.quaternion_value with
    | some quat => QuaterniondFromQuery euler (queryOf curveVarName) quat
    | none => none
  | .OTHER => none

/-- The collection loop of `OnIntrospection`: walks the batch threading
`simTime`/`hasSimTime`, skips unnamed or valueless parameters, decodes the
sim-time variable once, resolves each parameter to a registry entry, and
buffers `(curve set, value)` pairs for valid decodes. Returns the final
sim time and the buffered updates in batch order. -/
def collectLoop (euler : Quaterniond → Vector3d) (simTimeVar : String)
    (curves : List (String × List Nat)) :
    List Param → ℚ → Bool → ℚ × List (List Nat × ℚ)
  | [], simTime, _ => (simTime, [])
  | p :: rest, simTime, hasSimTime =>
    match p.value with
    | none => collectLoop euler simTimeVar curves rest simTime hasSimTime
    | some v =>
      if p.name = "" then collectLoop euler simTimeVar curves rest simTime hasSimTime
      else
        let next : ℚ × Bool :=
          if hasSimTime = false ∧ p.name = simTimeVar then
            match v.time_value with
            | some t => (timeDouble t, true)
            | none => (simTime, hasSimTime)
          else (simTime, hasSimTime)
        match resolveCurve curves p.name with
        | none => collectLoop euler simTimeVar curves rest next.1 next.2
        | some (k, s) =>
          match decodeValue euler k v with
          | none => collectLoop euler simTimeVar curves rest next.1 next.2
          | some d =>
            let r := collectLoop euler simTimeVar curves rest next.1 next.2
            (r.1, (s, d) :: r.2)

/-- The dispatch phase of `OnIntrospection`: for each buffered update, one
`AddPoint(simTime, value)` per live curve in the entry's set, in order.
Each produced triple is `(curve id, time, value)`. -/
def applyUpdates (alive : Nat → Bool) (simTime : ℚ)
    (updates : List (List Nat × ℚ)) : List (Nat × ℚ × ℚ) :=
  updates.flatMap (fun u => (u.1.filter alive).map (fun c => (c, simTime, u.2)))

/-- `IntrospectionCurveHandler::OnIntrospection`: the collection loop over
the whole batch followed by the dispatch of the buffered updates. The
result is the list of appended points; the handler state itself is not
mutated. (The statements after the `return` at line 460 are dead code.) -/
def OnIntrospection (euler : Quaterniond → Vector3d) (alive : Nat → Bool)
    (simTimeVar : String) (batch : List Param) (st : HandlerState) :
    List (Nat × ℚ × ℚ) :=
  let r := collectLoop euler simTimeVar st.curves batch 0 false
  applyUpdates alive r.1 r.2

/-! ## Operation sequences -/

/-- A public registry operation, carrying the liveness environment in
effect at call time. -/
inductive CurveOp where
  | add (name : String) (c : Nat) (alive : Nat → Bool)
  | remove (c : Nat) (alive : Nat → Bool)

/-- Applies one registry operation. -/
def applyCurveOp (items : List String) (st : HandlerState) :
    CurveOp → HandlerState
  | .add name c alive => AddCurve items alive name c st
  | .remove c alive => RemoveCurve items alive c st

/-- Runs a sequence of registry operations. -/
def runCurveOps (items : List String) (st : HandlerState)
    (ops : List CurveOp) : HandlerState :=
  ops.foldl (applyCurveOp items) st

/-- A direct filter operation. -/
inductive FilterOp where
  | addI (name : String)
  | removeI (name : String)

/-- Applies one filter operation. -/
def applyFilterOp (items : List String) (st : HandlerState) :
    FilterOp → HandlerState
  | .addI name => AddItemToFilter items name st
  | .removeI name => RemoveItemFromFilter items name st

/-- Runs a sequence of filter operations. -/
def runFilterOps (items : List String) (st : HandlerState)
    (ops : List FilterOp) : HandlerState :=
  ops.foldl (applyFilterOp items) st

/-- The number of currently-registered distinct variable names (registry
entries) resolving to the remote item `i`. -/
def resolvers (items : List String) (curves : List (String × List Nat))
    (i : String) : Nat :=
  (curves.map (fun e => e.1)).countP (fun n => resolveItem items n == some i)

/-! ## Helper lemmas -/

/-- A successful association-list lookup returns a member entry. -/
theorem lookup_mem {β : Type} (m : List (String × β)) (k : String) (v : β)
    (h : m.lookup k = some v) : (k, v) ∈ m := by
  induction m with
  | nil => simp [List.lookup] at h
  | cons e t ih =>
    rw [List.lookup] at h
    by_cases hk : k = e.1
    · have hb : (k == e.1) = true := by simpa using hk
      rw [hb] at h
      simp at h
      subst hk
      simp [← h]
    · have hb : (k == e.1) = false := by simpa using hk
      rw [hb] at h
      exact List.mem_cons_of_mem _ (ih h)

/-- A lookup fails exactly when the key is absent. -/
theorem lookup_eq_none_iff {β : Type} (m : List (String × β)) (k : String) :
    m.lookup k = none ↔ k ∉ m.map (fun e => e.1) := by
  induction m with
  | nil => simp [List.lookup]
  | cons e t ih =>
    rw [List.lookup]
    by_cases hk : k = e.1
    · have hb : (k == e.1) = true := by simpa using hk
      simp [hb, hk]
    · have hb : (k == e.1) = false := by simpa using hk
      simp [hb, ih, hk]

/-- A lookup succeeds exactly when the key is present. -/
theorem lookup_isSome_iff {β : Type} (m : List (String × β)) (k : String) :
    (∃ v, m.lookup k = some v) ↔ k ∈ m.map (fun e => e.1) := by
  constructor
  · rintro ⟨v, hv⟩
    exact List.mem_map.mpr ⟨(k, v), lookup_mem m k v hv, rfl⟩
  · intro hk
    rcases h : m.lookup k with _ | v
    · exact absurd hk ((lookup_eq_none_iff m k).mp h)
    · exact ⟨v, rfl⟩

/-- Dropping all but one element of a list with last element `c`. -/
theorem drop_last (l : List Char) (c : Char) (h : l.getLast? = some c) :
    l.drop (l.length - 1) = [c] := by
  induction l with
  | nil => simp at h
  | cons x t ih =>
    cases t with
    | nil =>
      simp at h
      simp [h]
    | cons y u =>
      have h2 : (y :: u).getLast? = some c := by
        simpa [List.getLast?_cons_cons] using h
      have h3 := ih h2
      have hlen : (x :: y :: u).length - 1 = u.length + 1 := by simp
      rw [hlen, List.drop_succ_cons]
      simpa using h3

/-- When no registry set contains the curve, the removal scan leaves the
registry unchanged and reports no erased entry. -/
theorem removeFromFirst_of_not_mem (c : Nat) (l : List (String × List Nat))
    (h : ∀ e ∈ l, c ∉ e.2) : removeFromFirst c l = (l, none) := by
  induction l with
  | nil => rfl
  | cons e t ih =>
    have he : c ∉ e.2 := h e (List.mem_cons_self e t)
    have ht : ∀ e2 ∈ t, c ∉ e2.2 := fun e2 h2 => h e2 (List.mem_cons_of_mem e h2)
    simp [removeFromFirst, he, ih ht]

/-- C9: `RemoveCurve` is a no-op — registry, filter, and reference-count map
are all unchanged and no error is raised — when the curve weak reference is
dead or the curve is not present in any variable set. -/
theorem C9_removeCurve_noop (items : List String) (alive : Nat → Bool)
    (c : Nat) (st : HandlerState) :
    (alive c = false → RemoveCurve items alive c st = st) ∧
    ((∀ e ∈ st.curves, c ∉ e.2) → RemoveCurve items alive c st = st) := by
  constructor
  · intro h
    simp [RemoveCurve, h]
  · intro h
    rw [RemoveCurve]
    by_cases ha : alive c = false
    · simp [ha]
    · simp [ha, removeFromFirst_of_not_mem c st.curves h]

/-- Witness for C9 at a concrete dead curve and a concrete absent curve. -/
theorem C9_removeCurve_noop_witness :
    RemoveCurve [] (fun _ => false) 5 (setupState "data://world/default?p=sim_time") =
      setupState "data://world/default?p=sim_time" ∧
    RemoveCurve [] (fun _ => true) 5 (setupState "data://world/default?p=sim_time") =
      setupState "data://world/default?p=sim_time" :=
  ⟨(C9_removeCurve_noop [] (fun _ => false) 5 _).1 rfl,
   (C9_removeCurve_noop [] (fun _ => true) 5 _).2 (by simp [setupState])⟩

/-- C10: the query decoder reads the last character through the unguarded
`size_t` index `size()-1`; for a nonempty query that index is `length - 1`
and in bounds for `substr`, while for the empty query it wraps to
`2^64 - 1`, which is out of bounds (`substr` demands `pos <= size()`). -/
theorem C10_substr_bounds (q : String) (hlen : q.length < 2 ^ 64) :
    (q ≠ "" → substrPos q = q.length - 1 ∧ substrPos q ≤ q.length) ∧
    (q = "" → substrPos q = 2 ^ 64 - 1 ∧ ¬ substrPos q ≤ q.length) := by
  constructor
  · intro h
    have h1 : q.length ≠ 0 := by
      intro h0
      exact h (by
        cases q with
        | mk data =>
          cases data with
          | nil => rfl
          | cons a t => simp [String.length] at h0)
    rw [substrPos]
    omega
  · intro h
    subst h
    constructor
    · rfl
    · rw [substrPos]
      simp

/-- Witness for C10 at the empty query and at a one-character query. -/
theorem C10_substr_bounds_witness :
    (substrPos "" = 2 ^ 64 - 1 ∧ ¬ substrPos "" ≤ ("" : String).length) ∧
    (substrPos "x" = 0 ∧ substrPos "x" ≤ ("x" : String).length) :=
  ⟨(C10_substr_bounds "" (by decide)).2 rfl,
   (C10_substr_bounds "x" (by decide)).1 (by decide)⟩

/-- C7: a 3D-vector-typed value decodes through `Vector3dFromQuery` on the
registry entry's query string; a query whose last character is `x`/`y`/`z`
yields exactly that component, and any other last character makes the
decode invalid (no sample). -/
theorem C7_vector3_last_char (euler : Quaterniond → Vector3d) (k : String)
    (val : AnyValue) (vec : Vector3d) (q : String) (v : Vector3d) :
    (val.type = .VECTOR3D → val.vector3d_value = some vec →
      decodeValue euler k val = Vector3dFromQuery (queryOf k) vec) ∧
    (q.data.getLast? = some 'x' → Vector3dFromQuery q v = some v.x) ∧
    (q.data.getLast? = some 'y' → Vector3dFromQuery q v = some v.y) ∧
    (q.data.getLast? = some 'z' → Vector3dFromQuery q v = some v.z) ∧
    (∀ ch, q.data.getLast? = some ch → ch ≠ 'x' → ch ≠ 'y' → ch ≠ 'z' →
      Vector3dFromQuery q v = none) := by
  refine ⟨?_, ?_, ?_, ?_, ?_⟩
  · intro ht hv
    simp [decodeValue, ht, hv]
  · intro h
    simp only [Vector3dFromQuery]
    rw [drop_last q.data _ h, if_pos (by decide)]
  · intro h
    simp only [Vector3dFromQuery]
    rw [drop_last q.data _ h, if_neg (by decide), if_pos (by decide)]
  · intro h
    simp only [Vector3dFromQuery]
    rw [drop_last q.data _ h, if_neg (by decide), if_neg (by decide),
      if_pos (by decide)]
  · intro ch h hx hy hz
    simp only [Vector3dFromQuery]
    rw [drop_last q.data _ h]
    have ex : ({ data := [ch] } : String) ≠ "x" := by
      intro hh
      have h2 : [ch] = ['x'] := congrArg String.data hh
      injection h2 with h3 h4
      exact hx h3
    have ey : ({ data := [ch] } : String) ≠ "y" := by
      intro hh
      have h2 : [ch] = ['y'] := congrArg String.data hh
      injection h2 with h3 h4
      exact hy h3
    have ez : ({ data := [ch] } : String) ≠ "z" := by
      intro hh
      have h2 : [ch] = ['z'] := congrArg String.data hh
      injection h2 with h3 h4
      exact hz h3
    rw [if_neg ex, if_neg ey, if_neg ez]

/-- Witness for C7 at a concrete vector value and queries ending in each
selector and in an unrecognized character. -/
theorem C7_vector3_last_char_witness :
    decodeValue (fun _ => ⟨0, 0, 0⟩) "data://robot?p=pose/position/x"
        { type := .VECTOR3D, vector3d_value := some ⟨1, 2, 3⟩ } =
      Vector3dFromQuery (queryOf "data://robot?p=pose/position/x") ⟨1, 2, 3⟩ ∧
    Vector3dFromQuery "p=pose/position/x" ⟨1, 2, 3⟩ = some 1 ∧
    Vector3dFromQuery "p=pose/position/y" ⟨1, 2, 3⟩ = some 2 ∧
    Vector3dFromQuery "p=pose/position/z" ⟨1, 2, 3⟩ = some 3 ∧
    Vector3dFromQuery "p=pose/position/w" ⟨1, 2, 3⟩ = none := by
  refine ⟨?_, ?_, ?_, ?_, ?_⟩
  · exact (C7_vector3_last_char (fun _ => ⟨0, 0, 0⟩) "data://robot?p=pose/position/x"
      { type := .VECTOR3D, vector3d_value := some ⟨1, 2, 3⟩ } ⟨1, 2, 3⟩ "" ⟨0, 0, 0⟩).1
      rfl rfl
  · exact (C7_vector3_last_char (fun _ => ⟨0, 0, 0⟩) "" { type := .OTHER } ⟨0, 0, 0⟩
      "p=pose/position/x" ⟨1, 2, 3⟩).2.1 (by decide)
  · exact (C7_vector3_last_char (fun _ => ⟨0, 0, 0⟩) "" { type := .OTHER } ⟨0, 0, 0⟩
      "p=pose/position/y" ⟨1, 2, 3⟩).2.2.1 (by decide)
  · exact (C7_vector3_last_char (fun _ => ⟨0, 0, 0⟩) "" { type := .OTHER } ⟨0, 0, 0⟩
      "p=pose/position/z" ⟨1, 2, 3⟩).2.2.2.1 (by decide)
  · exact (C7_vector3_last_char (fun _ => ⟨0, 0, 0⟩) "" { type := .OTHER } ⟨0, 0, 0⟩
      "p=pose/position/w" ⟨1, 2, 3⟩).2.2.2.2 'w' (by decide) (by decide) (by decide)
      (by decide)

/-- C1: evaluation of the quaternion decoder at the claim's inputs. A query
containing "roll" (and not "yaw") is reported invalid — `QuaterniondFromQuery`
returns no value — and likewise for "pitch"; only a query containing "yaw"
produces a value, always the Euler Z angle. The missing `else` before the
yaw test makes the trailing `else return false` apply to every query
without "yaw". -/
theorem C1_quaternion_selection_bug :
    strContains "p=pose/world_pose/vector3/orientation/double/roll" "roll" = true ∧
    strContains "p=pose/world_pose/vector3/orientation/double/roll" "yaw" = false ∧
    QuaterniondFromQuery (fun _ => ⟨1, 2, 3⟩)
      "p=pose/world_pose/vector3/orientation/double/roll" ⟨1, 0, 0, 0⟩ = none ∧
    strContains "p=pose/world_pose/vector3/orientation/double/pitch" "pitch" = true ∧
    QuaterniondFromQuery (fun _ => ⟨1, 2, 3⟩)
      "p=pose/world_pose/vector3/orientation/double/pitch" ⟨1, 0, 0, 0⟩ = none ∧
    QuaterniondFromQuery (fun _ => ⟨1, 2, 3⟩)
      "p=pose/world_pose/vector3/orientation/double/yaw" ⟨1, 0, 0, 0⟩ = some 3 :=
  ⟨rfl, rfl, rfl, rfl, rfl, rfl⟩

/-- C2 counterexample: a parameter of declared type DOUBLE whose
`double_value` field is absent still produces a sample — with value 0 —
because the numeric cases of the decode switch never clear `validData`.
The claim that such a decode is invalid and yields no sample is false. -/
theorem C2_counterexample_missing_double :
    OnIntrospection (fun _ => ⟨0, 0, 0⟩) (fun _ => true)
      "data://world/default?p=sim_time"
      [{ name := "data://robot?p=val", value := some { type := .DOUBLE } }]
      { curves := [("data://robot?p=val", [0])],
        introspectFilter := ["data://world/default?p=sim_time"],
        introspectFilterCount := [("data://world/default?p=sim_time", 1)] } =
      [(0, 0, 0)] := rfl

/-- A batch parameter that resolves but decodes invalidly is skipped,
leaving the processing of the remaining parameters unchanged. -/
theorem collectLoop_skip (euler : Quaterniond → Vector3d) (sv : String)
    (curves : List (String × List Nat)) (p : Param) (rest : List Param)
    (t : ℚ) (hs : Bool) (v : AnyValue)
    (hv : p.value = some v) (hne : p.name ≠ "") (hnsv : p.name ≠ sv)
    (hdec : ∀ k s, resolveCurve curves p.name = some (k, s) →
      decodeValue euler k v = none) :
    collectLoop euler sv curves (p :: rest) t hs =
      collectLoop euler sv curves rest t hs := by
  simp only [collectLoop, hv]
  rw [if_neg hne]
  have hc : ¬(hs = false ∧ p.name = sv) := fun hh => hnsv hh.2
  rw [if_neg hc]
  rcases hres : resolveCurve curves p.name with _ | ⟨k, s⟩
  · simp
  · simp [hdec k s hres]

/-- C2 amended: for POSE3D, VECTOR3D, and QUATERNIOND values whose
type-specific field is absent the decode is invalid and the parameter is
skipped, the rest of the batch being processed unchanged; for DOUBLE,
INT32, BOOLEAN, and TIME values with an absent field the decode stays
valid and yields the initial value 0 (a sample with value 0 is
produced). -/
theorem C2_missing_field_decode (euler : Quaterniond → Vector3d) :
    (∀ (k : String) (v : AnyValue),
      (v.type = .POSE3D → v.pose3d_value = none → decodeValue euler k v = none) ∧
      (v.type = .VECTOR3D → v.vector3d_value = none → decodeValue euler k v = none) ∧
      (v.type = .QUATERNIOND → v.quaternion_value = none →
        decodeValue euler k v = none) ∧
      (v.type = .DOUBLE → v.double_value = none → decodeValue euler k v = some 0) ∧
      (v.type = .INT32 → v.int_value = none → decodeValue euler k v = some 0) ∧
      (v.type = .BOOLEAN → v.bool_value = none → decodeValue euler k v = some 0) ∧
      (v.type = .TIME → v.time_value = none → decodeValue euler k v = some 0)) ∧
    (∀ (alive : Nat → Bool) (sv : String) (st : HandlerState) (p : Param)
      (rest : List Param) (v : AnyValue),
      p.value = some v → p.name ≠ "" → p.name ≠ sv →
      (∀ k s, resolveCurve st.curves p.name = some (k, s) →
        decodeValue euler k v = none) →
      OnIntrospection euler alive sv (p :: rest) st =
        OnIntrospection euler alive sv rest st) := by
  constructor
  · intro k v
    refine ⟨?_, ?_, ?_, ?_, ?_, ?_, ?_⟩ <;> intro ht hv <;> simp [decodeValue, ht, hv]
  · intro alive sv st p rest v hv hne hnsv hdec
    rw [OnIntrospection, OnIntrospection,
      collectLoop_skip euler sv st.curves p rest 0 false v hv hne hnsv hdec]

/-- Witness for C2's amended statement: a POSE3D value without a pose field
decodes invalidly and its parameter is skipped; a DOUBLE value without a
double field decodes to 0. -/
theorem C2_missing_field_decode_witness :
    decodeValue (fun _ => ⟨0, 0, 0⟩) "data://robot?p=val"
      { type := .POSE3D } = none ∧
    decodeValue (fun _ => ⟨0, 0, 0⟩) "data://robot?p=val"
      { type := .DOUBLE } = some 0 ∧
    OnIntrospection (fun _ => ⟨0, 0, 0⟩) (fun _ => true)
      "data://world/default?p=sim_time"
      [{ name := "data://robot?p=val", value := some { type := .POSE3D } }]
      { curves := [("data://robot?p=val", [0])],
        introspectFilter := ["data://world/default?p=sim_time"],
        introspectFilterCount := [("data://world/default?p=sim_time", 1)] } =
      OnIntrospection (fun _ => ⟨0, 0, 0⟩) (fun _ => true)
        "data://world/default?p=sim_time" []
        { curves := [("data://robot?p=val", [0])],
          introspectFilter := ["data://world/default?p=sim_time"],
          introspectFilterCount := [("data://world/default?p=sim_time", 1)] } :=
  ⟨((C2_missing_field_decode (fun _ => ⟨0, 0, 0⟩)).1 "data://robot?p=val"
      { type := .POSE3D }).1 rfl rfl,
   ((C2_missing_field_decode (fun _ => ⟨0, 0, 0⟩)).1 "data://robot?p=val"
      { type := .DOUBLE }).2.2.2.1 rfl rfl,
   (C2_missing_field_decode (fun _ => ⟨0, 0, 0⟩)).2 (fun _ => true)
      "data://world/default?p=sim_time" _ _ [] { type := .POSE3D } rfl
      (by decide) (by decide)
      (by
        intro k s hks
        have h2 : some ("data://robot?p=val", ([0] : List Nat)) = some (k, s) := hks
        cases h2
        rfl)⟩

/-- The registry state of the C8 worked example: one entry mapped to the
single live curve 7. -/
def stC8 : HandlerState :=
  { curves := [("data://robot?p=pose/world_pose/vector3/position/double/x", [7])],
    introspectFilter := ["data://world/default?p=sim_time"],
    introspectFilterCount := [("data://world/default?p=sim_time", 1)] }

/-- The batch of the C8 worked example: the sim-time parameter with time
value 5.0, then a pose parameter with position (1,2,3). -/
def batchC8 : List Param :=
  [{ name := "data://world/default?p=sim_time",
     value := some { type := .TIME, time_value := some (5, 0) } },
   { name := "data://robot?p=pose/world_pose",
     value := some { type := .POSE3D,
                     pose3d_value := some { pos := ⟨1, 2, 3⟩,
                                            rot := ⟨1, 0, 0, 0⟩ } } }]

/-- C8: the concrete worked example — registry entry
`data://robot?p=pose/world_pose/vector3/position/double/x` with single live
curve 7, a batch of the sim-time parameter (value 5.0) and a pose parameter
named `data://robot?p=pose/world_pose` with position (1,2,3) — appends
exactly the point (5.0, 1.0) to curve 7 (prefix resolution plus x-component
of the translational part). -/
theorem C8_pose_example :
    OnIntrospection (fun _ => ⟨0, 0, 0⟩) (fun _ => true)
      "data://world/default?p=sim_time" batchC8 stC8 = [(7, 5, 1)] := by
  have h : OnIntrospection (fun _ => ⟨0, 0, 0⟩) (fun _ => true)
      "data://world/default?p=sim_time" batchC8 stC8 =
      [(7, timeDouble (5, 0), 1)] := rfl
  rw [h]
  norm_num [timeDouble]

/-- Every appended point carries the dispatch-phase sim time. -/
theorem applyUpdates_time (alive : Nat → Bool) (t : ℚ)
    (ups : List (List Nat × ℚ)) :
    ∀ x ∈ applyUpdates alive t ups, x.2.1 = t := by
  intro x hx
  simp only [applyUpdates, List.mem_flatMap, List.mem_map] at hx
  obtain ⟨u, _, c, _, rfl⟩ := hx
  rfl

/-- When every buffered update's set holds exactly one live curve, the
dispatch phase appends exactly one point per update. -/
theorem applyUpdates_length (alive : Nat → Bool) (t : ℚ)
    (ups : List (List Nat × ℚ))
    (h : ∀ u ∈ ups, (u.1.filter alive).length = 1) :
    (applyUpdates alive t ups).length = ups.length := by
  induction ups with
  | nil => rfl
  | cons u rest ih =>
    have h1 := h u (List.mem_cons_self u rest)
    have h2 := ih (fun u2 hm => h u2 (List.mem_cons_of_mem u hm))
    simp only [applyUpdates, List.flatMap_cons, List.length_append,
      List.length_map, List.length_cons, h1] at h2 ⊢
    omega

/-- The collection loop over a suffix of all-valid parameters, with the sim
time already found: the sim time is unchanged, one update is buffered per
parameter, and every update comes from some parameter's resolution and
decode. -/
theorem collectLoop_valid (euler : Quaterniond → Vector3d) (sv : String)
    (curves : List (String × List Nat)) (l : List Param) (t : ℚ)
    (h : ∀ p ∈ l, p.name ≠ "" ∧ ∃ v, p.value = some v ∧
      ∃ k s, resolveCurve curves p.name = some (k, s) ∧
        ∃ d, decodeValue euler k v = some d) :
    (collectLoop euler sv curves l t true).1 = t ∧
    (collectLoop euler sv curves l t true).2.length = l.length ∧
    ∀ u ∈ (collectLoop euler sv curves l t true).2,
      ∃ p ∈ l, ∃ v k, p.value = some v ∧
        resolveCurve curves p.name = some (k, u.1) ∧
        decodeValue euler k v = some u.2 := by
  induction l generalizing t with
  | nil => exact ⟨rfl, rfl, by simp [collectLoop]⟩
  | cons p rest ih =>
    obtain ⟨hne, v, hv, k, s, hres, d, hdec⟩ := h p (List.mem_cons_self p rest)
    obtain ⟨ih1, ih2, ih3⟩ :=
      ih t (fun p2 hm => h p2 (List.mem_cons_of_mem p hm))
    simp only [collectLoop, hv]
    rw [if_neg hne]
    have hc : ¬((true : Bool) = false ∧ p.name = sv) := by simp
    rw [if_neg hc]
    simp only [hres, hdec]
    refine ⟨ih1, by simp [ih2], ?_⟩
    intro u hu
    rcases List.mem_cons.mp hu with rfl | hu2
    · exact ⟨p, List.mem_cons_self p rest, v, k, hv, hres, hdec⟩
    · obtain ⟨p2, hp2, v2, k2, h1, h2, h3⟩ := ih3 u hu2
      exact ⟨p2, List.mem_cons_of_mem p hp2, v2, k2, h1, h2, h3⟩

/-- C3: a batch of the sim-time parameter (time value `tv`) followed by N
parameters that each decode validly and resolve to a registry entry holding
exactly one live curve appends exactly N samples, all carrying the decoded
sim time; the appends are exactly the dispatch phase run on the buffer
collected from the whole batch (no point is appended during collection). -/
theorem C3_simtime_batch (euler : Quaterniond → Vector3d) (alive : Nat → Bool)
    (sv : String) (st : HandlerState) (pSim : Param) (rest : List Param)
    (v0 : AnyValue) (tv : Int × Int)
    (hsv : sv ≠ "") (hname : pSim.name = sv) (hval : pSim.value = some v0)
    (htime : v0.time_value = some tv)
    (hnores : resolveCurve st.curves sv = none)
    (hrest : ∀ p ∈ rest, p.name ≠ "" ∧ ∃ v, p.value = some v ∧
      ∃ k s, resolveCurve st.curves p.name = some (k, s) ∧
        (∃ d, decodeValue euler k v = some d) ∧
        (s.filter alive).length = 1) :
    OnIntrospection euler alive sv (pSim :: rest) st =
      applyUpdates alive
        (collectLoop euler sv st.curves (pSim :: rest) 0 false).1
        (collectLoop euler sv st.curves (pSim :: rest) 0 false).2 ∧
    (OnIntrospection euler alive sv (pSim :: rest) st).length = rest.length ∧
    ∀ x ∈ OnIntrospection euler alive sv (pSim :: rest) st,
      x.2.1 = timeDouble tv := by
  have hstep : collectLoop euler sv st.curves (pSim :: rest) 0 false =
      collectLoop euler sv st.curves rest (timeDouble tv) true := by
    simp only [collectLoop, hval, hname, htime, hnores]
    rw [if_neg hsv]
    simp
  obtain ⟨hv1, hv2, hv3⟩ :=
    collectLoop_valid euler sv st.curves rest (timeDouble tv)
      (fun p hp => by
        obtain ⟨h1, v, hv, k, s, hres, ⟨d, hd⟩, _⟩ := hrest p hp
        exact ⟨h1, v, hv, k, s, hres, d, hd⟩)
  have hO : OnIntrospection euler alive sv (pSim :: rest) st =
      applyUpdates alive
        (collectLoop euler sv st.curves rest (timeDouble tv) true).1
        (collectLoop euler sv st.curves rest (timeDouble tv) true).2 := by
    rw [OnIntrospection, hstep]
  have hones : ∀ u ∈ (collectLoop euler sv st.curves rest (timeDouble tv) true).2,
      (u.1.filter alive).length = 1 := by
    intro u hu
    obtain ⟨p, hp, v, k, _, hres, _⟩ := hv3 u hu
    obtain ⟨_, v2, _, k2, s2, hres2, _, hlen⟩ := hrest p hp
    rw [hres] at hres2
    have hs : s2 = u.1 := by
      have := (Option.some.injEq _ _).mp hres2.symm
      exact congrArg Prod.snd this
    rw [← hs]
    exact hlen
  refine ⟨rfl, ?_, ?_⟩
  · rw [hO, hv1, applyUpdates_length alive (timeDouble tv) _ hones]
    exact hv2
  · intro x hx
    rw [hO, hv1] at hx
    exact applyUpdates_time alive (timeDouble tv) _ x hx

/-- Registry state for the C3 witness: one entry with single live curve 4. -/
def stC3 : HandlerState :=
  { curves := [("data://robot?p=val", [4])],
    introspectFilter := ["data://world/default?p=sim_time"],
    introspectFilterCount := [("data://world/default?p=sim_time", 1)] }

/-- The sim-time parameter of the C3 witness batch. -/
def pSimC3 : Param :=
  { name := "data://world/default?p=sim_time",
    value := some { type := .TIME, time_value := some (5, 0) } }

/-- The single valid data parameter of the C3 witness batch. -/
def pValC3 : Param :=
  { name := "data://robot?p=val",
    value := some { type := .DOUBLE, double_value := some 2 } }

/-- Witness for C3 at a concrete one-parameter batch. -/
theorem C3_simtime_batch_witness :
    OnIntrospection (fun _ => ⟨0, 0, 0⟩) (fun _ => true)
      "data://world/default?p=sim_time" [pSimC3, pValC3] stC3 =
      applyUpdates (fun _ => true)
        (collectLoop (fun _ => ⟨0, 0, 0⟩) "data://world/default?p=sim_time"
          stC3.curves [pSimC3, pValC3] 0 false).1
        (collectLoop (fun _ => ⟨0, 0, 0⟩) "data://world/default?p=sim_time"
          stC3.curves [pSimC3, pValC3] 0 false).2 ∧
    (OnIntrospection (fun _ => ⟨0, 0, 0⟩) (fun _ => true)
      "data://world/default?p=sim_time" [pSimC3, pValC3] stC3).length = 1 ∧
    ∀ x ∈ OnIntrospection (fun _ => ⟨0, 0, 0⟩) (fun _ => true)
      "data://world/default?p=sim_time" [pSimC3, pValC3] stC3,
      x.2.1 = timeDouble (5, 0) :=
  C3_simtime_batch (fun _ => ⟨0, 0, 0⟩) (fun _ => true)
    "data://world/default?p=sim_time" stC3 pSimC3 [pValC3]
    { type := .TIME, time_value := some (5, 0) } (5, 0)
    (by decide) rfl rfl rfl rfl
    (by
      intro p hp
      rw [List.mem_singleton] at hp
      subst hp
      exact ⟨by decide, _, rfl, "data://robot?p=val", [4], rfl, ⟨2, rfl⟩, rfl⟩)

/-- Writing a count and reading it back. -/
theorem countLookup_countSet_self (m : List (String × Int)) (k : String)
    (v : Int) : countLookup (countSet k v m) k = v := by
  induction m with
  | nil => simp [countSet, countLookup, List.lookup]
  | cons e t ih =>
    rw [countSet]
    by_cases hk : e.1 = k
    · simp [countLookup, List.lookup, hk]
    · rw [if_neg hk]
      have hb : (k == e.1) = false := by
        simp
        exact fun hh => hk hh.symm
      simp only [countLookup, List.lookup, hb] at ih ⊢
      exact ih

/-- Writing one count leaves the others unchanged. -/
theorem countLookup_countSet_ne (m : List (String × Int)) (k k2 : String)
    (v : Int) (h : k2 ≠ k) :
    countLookup (countSet k v m) k2 = countLookup m k2 := by
  induction m with
  | nil =>
    have hb : (k2 == k) = false := by simpa using h
    simp [countSet, countLookup, List.lookup, hb]
  | cons e t ih =>
    rw [countSet]
    by_cases hk : e.1 = k
    · have hb : (k2 == k) = false := by simpa using h
      simp [countLookup, List.lookup, hb, hk]
    · rw [if_neg hk]
      simp only [countLookup, List.lookup] at ih ⊢
      by_cases h2 : k2 = e.1
      · simp [h2]
      · have hb2 : (k2 == e.1) = false := by simpa using h2
        simp only [hb2]
        exact ih

/-- Writing an existing key preserves the key list. -/
theorem keys_countSet_mem (m : List (String × Int)) (k : String) (v : Int)
    (h : k ∈ m.map (fun e => e.1)) :
    (countSet k v m).map (fun e => e.1) = m.map (fun e => e.1) := by
  induction m with
  | nil => simp at h
  | cons e t ih =>
    rw [countSet]
    by_cases hk : e.1 = k
    · simp [hk]
    · rw [if_neg hk]
      have h2 : k ∈ t.map (fun e => e.1) := by
        rcases List.mem_map.mp h with ⟨e2, he2, hke⟩
        rcases List.mem_cons.mp he2 with rfl | hmem
        · exact absurd hke hk
        · exact List.mem_map.mpr ⟨e2, hmem, hke⟩
      simp [ih h2]

/-- Writing an absent key appends it to the key list. -/
theorem keys_countSet_not_mem (m : List (String × Int)) (k : String) (v : Int)
    (h : k ∉ m.map (fun e => e.1)) :
    (countSet k v m).map (fun e => e.1) = m.map (fun e => e.1) ++ [k] := by
  induction m with
  | nil => simp [countSet]
  | cons e t ih =>
    rw [countSet]
    by_cases hk : e.1 = k
    · exact absurd (List.mem_map.mpr ⟨e, List.mem_cons_self e t, hk⟩) h
    · rw [if_neg hk]
      have h2 : k ∉ t.map (fun e => e.1) := fun hh =>
        h (by
          rcases List.mem_map.mp hh with ⟨e2, he2, hke⟩
          exact List.mem_map.mpr ⟨e2, List.mem_cons_of_mem e he2, hke⟩)
      simp [ih h2]

/-- Entries after a count write are the written pair or old entries. -/
theorem mem_countSet (m : List (String × Int)) (k : String) (v : Int)
    (e : String × Int) (h : e ∈ countSet k v m) : e = (k, v) ∨ e ∈ m := by
  induction m with
  | nil => simpa [countSet] using h
  | cons e2 t ih =>
    rw [countSet] at h
    by_cases hk : e2.1 = k
    · rw [if_pos hk] at h
      rcases List.mem_cons.mp h with rfl | hmem
      · exact Or.inl rfl
      · exact Or.inr (List.mem_cons_of_mem e2 hmem)
    · rw [if_neg hk] at h
      rcases List.mem_cons.mp h with rfl | hmem
      · exact Or.inr (List.mem_cons_self _ _)
      · rcases ih hmem with h1 | h2
        · exact Or.inl h1
        · exact Or.inr (List.mem_cons_of_mem e2 h2)

/-- Key membership after erasing a key from the count map. -/
theorem mem_keys_countErase (m : List (String × Int)) (k k2 : String) :
    k2 ∈ (countErase k m).map (fun e => e.1) ↔
      k2 ∈ m.map (fun e => e.1) ∧ k2 ≠ k := by
  constructor
  · intro h
    rcases List.mem_map.mp h with ⟨e, he, hke⟩
    have := List.mem_filter.mp he
    refine ⟨List.mem_map.mpr ⟨e, this.1, hke⟩, ?_⟩
    have hne : (e.1 != k) = true := this.2
    rw [← hke]
    simpa using hne
  · rintro ⟨h1, h2⟩
    rcases List.mem_map.mp h1 with ⟨e, he, hke⟩
    refine List.mem_map.mpr ⟨e, List.mem_filter.mpr ⟨he, ?_⟩, hke⟩
    rw [hke]
    simpa using h2

/-- Entries surviving a count erase were entries before. -/
theorem mem_countErase (m : List (String × Int)) (k : String) (e : String × Int)
    (h : e ∈ countErase k m) : e ∈ m :=
  (List.mem_filter.mp h).1

/-- Sorted insertion is a permutation of cons. -/
theorem insertStrSorted_perm (k : String) (l : List String) :
    List.Perm (insertStrSorted k l) (k :: l) := by
  induction l with
  | nil => rfl
  | cons x t ih =>
    rw [insertStrSorted]
    by_cases h : k < x
    · rw [if_pos h]
    · rw [if_neg h]
      exact (ih.cons x).trans (List.Perm.swap k x t)

/-- The filter and its count map hold exactly the same keys. -/
def FilterKeysMatch (st : HandlerState) : Prop :=
  ∀ k, k ∈ st.introspectFilter ↔
    k ∈ st.introspectFilterCount.map (fun e => e.1)

/-- Every stored reference count is strictly positive. -/
def FilterCountsPos (st : HandlerState) : Prop :=
  ∀ e ∈ st.introspectFilterCount, 0 < e.2

/-- `AddItemToFilter` preserves the key-set and positivity invariants. -/
theorem AddItemToFilter_inv (items : List String) (name : String)
    (st : HandlerState) (h1 : FilterKeysMatch st) (h2 : FilterCountsPos st)
    (h3 : st.introspectFilter.Nodup) :
    FilterKeysMatch (AddItemToFilter items name st) ∧
    FilterCountsPos (AddItemToFilter items name st) ∧
    (AddItemToFilter items name st).introspectFilter.Nodup := by
  rcases hres : resolveItem items name with _ | item
  · simp only [AddItemToFilter, hres]
    exact ⟨h1, h2, h3⟩
  · simp only [AddItemToFilter, hres]
    by_cases hmem : item ∈ st.introspectFilter
    · rw [if_pos hmem]
      have hkeys : item ∈ st.introspectFilterCount.map (fun e => e.1) :=
        (h1 item).mp hmem
      refine ⟨?_, ?_, h3⟩
      · intro k
        simp only [keys_countSet_mem _ _ _ hkeys]
        exact h1 k
      · intro e he
        rcases mem_countSet _ _ _ _ he with rfl | hold
        · obtain ⟨c, hc⟩ := (lookup_isSome_iff _ _).mpr hkeys
          have hpos := h2 _ (lookup_mem _ _ _ hc)
          simp only [countLookup, hc]
          omega
        · exact h2 _ hold
    · rw [if_neg hmem]
      have hkeys : item ∉ st.introspectFilterCount.map (fun e => e.1) :=
        fun hh => hmem ((h1 item).mpr hh)
      refine ⟨?_, ?_, ?_⟩
      · intro k
        simp only [keys_countSet_not_mem _ _ _ hkeys,
          (insertStrSorted_perm item st.introspectFilter).mem_iff,
          List.mem_append, List.mem_cons, List.mem_singleton,
          List.not_mem_nil, or_false]
        rw [h1 k]
        tauto
      · intro e he
        rcases mem_countSet _ _ _ _ he with rfl | hold
        · exact Int.one_pos
        · exact h2 _ hold
      · rw [(insertStrSorted_perm item st.introspectFilter).nodup_iff]
        exact List.Nodup.cons hmem h3

/-- `RemoveItemFromFilter` preserves the key-set and positivity
invariants. -/
theorem RemoveItemFromFilter_inv (items : List String) (name : String)
    (st : HandlerState) (h1 : FilterKeysMatch st) (h2 : FilterCountsPos st)
    (h3 : st.introspectFilter.Nodup) :
    FilterKeysMatch (RemoveItemFromFilter items name st) ∧
    FilterCountsPos (RemoveItemFromFilter items name st) ∧
    (RemoveItemFromFilter items name st).introspectFilter.Nodup := by
  rcases hres : resolveItem items name with _ | item
  · simp only [RemoveItemFromFilter, hres]
    exact ⟨h1, h2, h3⟩
  · simp only [RemoveItemFromFilter, hres]
    by_cases hmem : item ∈ st.introspectFilter
    · rw [if_pos hmem]
      have hkeys : item ∈ st.introspectFilterCount.map (fun e => e.1) :=
        (h1 item).mp hmem
      obtain ⟨c, hc⟩ := (lookup_isSome_iff _ _).mpr hkeys
      have hpos := h2 _ (lookup_mem _ _ _ hc)
      have hcl : countLookup st.introspectFilterCount item = c := by
        simp [countLookup, hc]
      by_cases hz : countLookup st.introspectFilterCount item - 1 = 0
      · rw [if_pos hz]
        refine ⟨?_, ?_, List.Nodup.erase item h3⟩
        · intro k
          rw [List.Nodup.mem_erase_iff h3, mem_keys_countErase]
          rw [h1 k]
          tauto
        · intro e he
          exact h2 _ (mem_countErase _ _ _ he)
      · rw [if_neg hz]
        refine ⟨?_, ?_, h3⟩
        · intro k
          simp only [keys_countSet_mem _ _ _ hkeys]
          exact h1 k
        · intro e he
          rcases mem_countSet _ _ _ _ he with rfl | hold
          · show 0 < countLookup st.introspectFilterCount item - 1
            rw [hcl] at hz ⊢
            omega
          · exact h2 _ hold
    · rw [if_neg hmem]
      exact ⟨h1, h2, h3⟩

/-- Any sequence of filter operations preserves the key-set and positivity
invariants. -/
theorem runFilterOps_inv_aux (items : List String) (ops : List FilterOp) :
    ∀ st : HandlerState, FilterKeysMatch st → FilterCountsPos st →
      st.introspectFilter.Nodup →
      FilterKeysMatch (runFilterOps items st ops) ∧
      FilterCountsPos (runFilterOps items st ops) ∧
      (runFilterOps items st ops).introspectFilter.Nodup := by
  induction ops with
  | nil => exact fun st a b c => ⟨a, b, c⟩
  | cons op rest ih =>
    intro st h1 h2 h3
    have hstep :
        FilterKeysMatch (applyFilterOp items st op) ∧
        FilterCountsPos (applyFilterOp items st op) ∧
        (applyFilterOp items st op).introspectFilter.Nodup := by
      cases op with
      | addI name => exact AddItemToFilter_inv items name st h1 h2 h3
      | removeI name => exact RemoveItemFromFilter_inv items name st h1 h2 h3
    exact ih (applyFilterOp items st op) hstep.1 hstep.2.1 hstep.2.2

/-- C5: after any sequence of `AddItemToFilter`/`RemoveItemFromFilter`
operations from the post-setup state, the filter's key set equals the
count map's key set and every stored count is strictly positive (so a count
that reaches zero is removed from both in the same operation). -/
theorem C5_filter_count_inv (items : List String) (sv : String)
    (ops : List FilterOp) :
    (∀ k, k ∈ (runFilterOps items (setupState sv) ops).introspectFilter ↔
      k ∈ (runFilterOps items (setupState sv) ops).introspectFilterCount.map
        (fun e => e.1)) ∧
    (∀ e ∈ (runFilterOps items (setupState sv) ops).introspectFilterCount,
      0 < e.2) := by
  have h := runFilterOps_inv_aux items ops (setupState sv)
    (by intro k; simp [setupState])
    (by
      intro e he
      simp [setupState] at he
      rw [he]
      exact Int.one_pos)
    (by simp [setupState])
  exact ⟨h.1, h.2.1⟩

/-- Witness for C5 after one resolving add operation. -/
theorem C5_filter_count_inv_witness :
    ("data://world/default?p=sim_time" ∈
      (runFilterOps ["data://a?p=b"]
        (setupState "data://world/default?p=sim_time")
        [FilterOp.addI "data://a?p=b/c"]).introspectFilter ↔
     "data://world/default?p=sim_time" ∈
      (runFilterOps ["data://a?p=b"]
        (setupState "data://world/default?p=sim_time")
        [FilterOp.addI "data://a?p=b/c"]).introspectFilterCount.map
          (fun e => e.1)) ∧
    (0 : Int) < (("data://world/default?p=sim_time", 1) : String × Int).2 :=
  ⟨(C5_filter_count_inv ["data://a?p=b"] "data://world/default?p=sim_time"
      [FilterOp.addI "data://a?p=b/c"]).1 "data://world/default?p=sim_time",
   (C5_filter_count_inv ["data://a?p=b"] "data://world/default?p=sim_time"
      [FilterOp.addI "data://a?p=b/c"]).2
      ("data://world/default?p=sim_time", 1) (by decide)⟩

/-- The filter-side invariant of the handler, parameterized by the expected
per-item subscriber count `F` (the number of registry entries resolving to
each item): key sets match, stored counts are `F` plus one for the
permanently subscribed sim-time item, items outside the filter have no
subscribers, and the sim-time item stays subscribed. -/
structure CountsSpec (sv : String) (F : String → Nat) (st : HandlerState) :
    Prop where
  keysMatch : ∀ k, k ∈ st.introspectFilter ↔
    k ∈ st.introspectFilterCount.map (fun e => e.1)
  filterNodup : st.introspectFilter.Nodup
  counts : ∀ i ∈ st.introspectFilter,
    countLookup st.introspectFilterCount i =
      (F i : Int) + (if i = sv then 1 else 0)
  zeroOut : ∀ i, i ∉ st.introspectFilter → F i = 0
  simTimeMem : sv ∈ st.introspectFilter

/-- `AddItemToFilter name` moves the filter-side invariant from `F` to `F`
plus one subscriber on the item `name` resolves to, leaves the registry
untouched, and never shrinks the filter. -/
theorem AddItemToFilter_countsSpec (items : List String) (sv name : String)
    (st : HandlerState) (F : String → Nat) (h : CountsSpec sv F st) :
    CountsSpec sv
      (fun i => F i + (if resolveItem items name = some i then 1 else 0))
      (AddItemToFilter items name st) ∧
    (AddItemToFilter items name st).curves = st.curves ∧
    (∀ k ∈ st.introspectFilter,
      k ∈ (AddItemToFilter items name st).introspectFilter) ∧
    (∀ j, resolveItem items name = some j →
      j ∈ (AddItemToFilter items name st).introspectFilter) := by
  rcases hres : resolveItem items name with _ | item
  · have hid : AddItemToFilter items name st = st := by
      simp only [AddItemToFilter, hres]
    rw [hid]
    refine ⟨⟨h.keysMatch, h.filterNodup, ?_, ?_, h.simTimeMem⟩, rfl,
      fun k hk => hk, fun j hj => Option.noConfusion hj⟩
    · intro i hi
      rw [if_neg (fun hh => Option.noConfusion hh), Nat.add_zero]
      exact h.counts i hi
    · intro i hi
      rw [if_neg (fun hh => Option.noConfusion hh), Nat.add_zero]
      exact h.zeroOut i hi
  · simp only [AddItemToFilter, hres]
    by_cases hmem : item ∈ st.introspectFilter
    · rw [if_pos hmem]
      have hkeys : item ∈ st.introspectFilterCount.map (fun e => e.1) :=
        (h.keysMatch item).mp hmem
      refine ⟨⟨?_, h.filterNodup, ?_, ?_, h.simTimeMem⟩, rfl,
        fun k hk => hk, ?_⟩
      · intro k
        simp only [keys_countSet_mem _ _ _ hkeys]
        exact h.keysMatch k
      · intro i hi
        by_cases hii : i = item
        · subst hii
          rw [countLookup_countSet_self]
          rw [h.counts i hi]
          simp only [Option.some.injEq, eq_self_iff_true, if_true]
          push_cast
          ring
        · rw [countLookup_countSet_ne _ _ _ _ hii]
          rw [h.counts i hi]
          have : ¬ (some item = some i) := fun hh =>
            hii (Option.some.injEq item i ▸ hh).symm
          rw [if_neg this, Nat.add_zero]
      · intro i hi
        have h0 := h.zeroOut i hi
        have : ¬ (some item = some i) := fun hh => by
          have : item = i := by injection hh
          subst this
          exact hi hmem
        rw [if_neg this, Nat.add_zero]
        exact h0
      · intro j hj
        have : item = j := by injection hj
        subst this
        exact hmem
    · rw [if_neg hmem]
      have hkeys : item ∉ st.introspectFilterCount.map (fun e => e.1) :=
        fun hh => hmem ((h.keysMatch item).mpr hh)
      have hitem_sv : item ≠ sv := fun hh => hmem (hh ▸ h.simTimeMem)
      have hF0 : F item = 0 := h.zeroOut item hmem
      refine ⟨⟨?_, ?_, ?_, ?_, ?_⟩, rfl, ?_, ?_⟩
      · intro k
        simp only [keys_countSet_not_mem _ _ _ hkeys,
          (insertStrSorted_perm item st.introspectFilter).mem_iff,
          List.mem_cons, List.mem_append, List.mem_singleton]
        rw [h.keysMatch k]
        tauto
      · rw [(insertStrSorted_perm item st.introspectFilter).nodup_iff]
        exact List.Nodup.cons hmem h.filterNodup
      · intro i hi
        rw [(insertStrSorted_perm item st.introspectFilter).mem_iff] at hi
        rcases List.mem_cons.mp hi with rfl | hi2
        · rw [countLookup_countSet_self]
          simp only [Option.some.injEq, eq_self_iff_true, if_true]
          rw [hF0, if_neg hitem_sv]
          simp
        · by_cases hii : i = item
          · subst hii
            rw [countLookup_countSet_self]
            simp only [Option.some.injEq, eq_self_iff_true, if_true]
            rw [hF0, if_neg hitem_sv]
            simp
          · rw [countLookup_countSet_ne _ _ _ _ hii]
            rw [h.counts i hi2]
            have : ¬ (some item = some i) := fun hh =>
              hii (Option.some.inj hh).symm
            rw [if_neg this, Nat.add_zero]
      · intro i hi
        rw [(insertStrSorted_perm item st.introspectFilter).mem_iff] at hi
        have hi1 : i ≠ item := fun hh => hi (hh ▸ List.mem_cons_self item _)
        have hi2 : i ∉ st.introspectFilter := fun hh =>
          hi (List.mem_cons_of_mem item hh)
        have : ¬ (some item = some i) := fun hh => hi1 (Option.some.inj hh).symm
        rw [if_neg this, Nat.add_zero]
        exact h.zeroOut i hi2
      · rw [(insertStrSorted_perm item st.introspectFilter).mem_iff]
        exact List.mem_cons_of_mem item h.simTimeMem
      · intro k hk
        rw [(insertStrSorted_perm item st.introspectFilter).mem_iff]
        exact List.mem_cons_of_mem item hk
      · intro j hj
        have : item = j := by injection hj
        subst this
        rw [(insertStrSorted_perm item st.introspectFilter).mem_iff]
        exact List.mem_cons_self item _

/-- Erasing one key leaves the other counts unchanged. -/
theorem countLookup_countErase_ne (m : List (String × Int)) (k k2 : String)
    (h : k2 ≠ k) : countLookup (countErase k m) k2 = countLookup m k2 := by
  induction m with
  | nil => rfl
  | cons e t ih =>
    by_cases he : e.1 = k
    · have hb1 : (e.1 != k) = false := by simpa using he
      have hb2 : (k2 == e.1) = false := by
        simp only [beq_eq_false_iff_ne, ne_eq]
        intro hh
        exact h (hh.trans he)
      simp only [countErase, List.filter_cons, hb1, Bool.false_eq_true,
        if_false, countLookup, List.lookup, hb2] at ih ⊢
      exact ih
    · have hb1 : (e.1 != k) = true := by simpa using he
      simp only [countErase, List.filter_cons, hb1, if_true, countLookup,
        List.lookup] at ih ⊢
      by_cases h2 : k2 = e.1
      · have hb2 : (k2 == e.1) = true := by simpa using h2
        simp only [hb2]
      · have hb2 : (k2 == e.1) = false := by simpa using h2
        simp only [hb2]
        exact ih

/-- `RemoveItemFromFilter name` moves the filter-side invariant from `F` to
`F` minus one subscriber on the item `name` resolves to (which must have at
least one subscriber), leaving the registry untouched. -/
theorem RemoveItemFromFilter_countsSpec (items : List String) (sv name : String)
    (st : HandlerState) (F : String → Nat) (h : CountsSpec sv F st)
    (hge : ∀ j, resolveItem items name = some j → 1 ≤ F j) :
    CountsSpec sv
      (fun i => F i - (if resolveItem items name = some i then 1 else 0))
      (RemoveItemFromFilter items name st) ∧
    (RemoveItemFromFilter items name st).curves = st.curves := by
  rcases hres : resolveItem items name with _ | item
  · have hid : RemoveItemFromFilter items name st = st := by
      simp only [RemoveItemFromFilter, hres]
    rw [hid]
    refine ⟨⟨h.keysMatch, h.filterNodup, ?_, ?_, h.simTimeMem⟩, rfl⟩
    · intro i hi
      rw [if_neg (fun hh => Option.noConfusion hh), Nat.sub_zero]
      exact h.counts i hi
    · intro i hi
      rw [if_neg (fun hh => Option.noConfusion hh), Nat.sub_zero]
      exact h.zeroOut i hi
  · simp only [RemoveItemFromFilter, hres]
    have hge1 : 1 ≤ F item := hge item hres
    by_cases hmem : item ∈ st.introspectFilter
    · rw [if_pos hmem]
      have hkeys : item ∈ st.introspectFilterCount.map (fun e => e.1) :=
        (h.keysMatch item).mp hmem
      have hcnt := h.counts item hmem
      by_cases hz : countLookup st.introspectFilterCount item - 1 = 0
      · rw [if_pos hz]
        have hcl1 : countLookup st.introspectFilterCount item = 1 := by omega
        have hsv2 : item ≠ sv := by
          intro hh
          rw [hcnt, if_pos hh] at hcl1
          omega
        have hF1 : F item = 1 := by
          rw [hcnt, if_neg hsv2] at hcl1
          omega
        refine ⟨⟨?_, List.Nodup.erase item h.filterNodup, ?_, ?_, ?_⟩, rfl⟩
        · intro k
          rw [List.Nodup.mem_erase_iff h.filterNodup, mem_keys_countErase,
            h.keysMatch k]
          tauto
        · intro i hi
          rw [List.Nodup.mem_erase_iff h.filterNodup] at hi
          obtain ⟨hne, hifil⟩ := hi
          rw [countLookup_countErase_ne _ _ _ hne]
          have hind : ¬ (some item = some i) := fun hh =>
            hne ((Option.some.inj hh).symm ▸ rfl)
          rw [if_neg hind, Nat.sub_zero]
          exact h.counts i hifil
        · intro i hi
          rw [List.Nodup.mem_erase_iff h.filterNodup] at hi
          by_cases hii : i = item
          · subst hii
            rw [if_pos rfl, hF1]
          · have hifil : i ∉ st.introspectFilter := fun hh => hi ⟨hii, hh⟩
            have hind : ¬ (some item = some i) := fun hh =>
              hii (Option.some.inj hh).symm
            rw [if_neg hind, Nat.sub_zero]
            exact h.zeroOut i hifil
        · rw [List.Nodup.mem_erase_iff h.filterNodup]
          exact ⟨fun hh => hsv2 hh.symm, h.simTimeMem⟩
      · rw [if_neg hz]
        refine ⟨⟨?_, h.filterNodup, ?_, ?_, h.simTimeMem⟩, rfl⟩
        · intro k
          simp only [keys_countSet_mem _ _ _ hkeys]
          exact h.keysMatch k
        · intro i hi
          by_cases hii : i = item
          · subst hii
            rw [countLookup_countSet_self, if_pos rfl, hcnt]
            by_cases hsv2 : i = sv
            · rw [if_pos hsv2]
              omega
            · rw [if_neg hsv2]
              omega
          · rw [countLookup_countSet_ne _ _ _ _ hii]
            have hind : ¬ (some item = some i) := fun hh =>
              hii (Option.some.inj hh).symm
            rw [if_neg hind, Nat.sub_zero]
            exact h.counts i hi
        · intro i hi
          have hii : i ≠ item := fun hh => hi (hh ▸ hmem)
          have hind : ¬ (some item = some i) := fun hh =>
            hii (Option.some.inj hh).symm
          rw [if_neg hind, Nat.sub_zero]
          exact h.zeroOut i hi
    · rw [if_neg hmem]
      exfalso
      have h0 := h.zeroOut item hmem
      omega

/-- Sorted registry insertion is a permutation of cons. -/
theorem insertCurveEntry_perm (name : String) (cs : List Nat)
    (l : List (String × List Nat)) :
    List.Perm (insertCurveEntry name cs l) ((name, cs) :: l) := by
  induction l with
  | nil => rfl
  | cons e t ih =>
    rw [insertCurveEntry]
    by_cases h : name < e.1
    · rw [if_pos h]
    · rw [if_neg h]
      exact (ih.cons e).trans (List.Perm.swap (name, cs) e t)

/-- Updating an entry's set preserves the key list. -/
theorem keys_updateCurveEntry (name : String) (c : Nat)
    (l : List (String × List Nat)) :
    (updateCurveEntry name c l).map (fun e => e.1) = l.map (fun e => e.1) := by
  induction l with
  | nil => rfl
  | cons e t ih =>
    rw [updateCurveEntry]
    by_cases h : e.1 = name
    · rw [if_pos h]
      simp
    · rw [if_neg h]
      simp [ih]

/-- Entries after an entry-set update are old entries or an old entry with
the new curve appended. -/
theorem mem_updateCurveEntry (name : String) (c : Nat)
    (l : List (String × List Nat)) (e : String × List Nat)
    (h : e ∈ updateCurveEntry name c l) :
    e ∈ l ∨ ∃ e2 ∈ l, e = (e2.1, e2.2 ++ [c]) := by
  induction l with
  | nil => simpa [updateCurveEntry] using h
  | cons e2 t ih =>
    rw [updateCurveEntry] at h
    by_cases h2 : e2.1 = name
    · rw [if_pos h2] at h
      rcases List.mem_cons.mp h with rfl | hmem
      · exact Or.inr ⟨e2, List.mem_cons_self e2 t, rfl⟩
      · exact Or.inl (List.mem_cons_of_mem e2 hmem)
    · rw [if_neg h2] at h
      rcases List.mem_cons.mp h with rfl | hmem
      · exact Or.inl (List.mem_cons_self _ _)
      · rcases ih hmem with h3 | ⟨e3, he3, h4⟩
        · exact Or.inl (List.mem_cons_of_mem e2 h3)
        · exact Or.inr ⟨e3, List.mem_cons_of_mem e2 he3, h4⟩

/-- Full case analysis of the removal scan: either no set contains the
curve and nothing changes, or the first entry containing it is updated in
place (set still nonempty) or deleted (set emptied), with the entry's name
reported. -/
theorem removeFromFirst_spec (c : Nat) (l : List (String × List Nat)) :
    (removeFromFirst c l = (l, none) ∧ ∀ e ∈ l, c ∉ e.2) ∨
    (∃ pre e post, l = pre ++ e :: post ∧ c ∈ e.2 ∧
      ((e.2.erase c ≠ [] ∧
        removeFromFirst c l = (pre ++ (e.1, e.2.erase c) :: post, none)) ∨
       (e.2.erase c = [] ∧
        removeFromFirst c l = (pre ++ post, some e.1)))) := by
  induction l with
  | nil => exact Or.inl ⟨rfl, by simp⟩
  | cons e t ih =>
    by_cases hc : c ∈ e.2
    · right
      refine ⟨[], e, t, rfl, hc, ?_⟩
      by_cases hs : e.2.erase c = []
      · exact Or.inr ⟨hs, by simp [removeFromFirst, hc, hs]⟩
      · exact Or.inl ⟨hs, by simp [removeFromFirst, hc, hs]⟩
    · rcases ih with ⟨h1, h2⟩ | ⟨pre, e2, post, hl, hc2, hcase⟩
      · left
        refine ⟨?_, ?_⟩
        · simp [removeFromFirst, hc, h1]
        · intro e3 he3
          rcases List.mem_cons.mp he3 with rfl | hmem
          · exact hc
          · exact h2 e3 hmem
      · right
        refine ⟨e :: pre, e2, post, by rw [hl]; rfl, hc2, ?_⟩
        rcases hcase with ⟨hne2, heq⟩ | ⟨hnil, heq⟩
        · exact Or.inl ⟨hne2, by simp [removeFromFirst, hc, heq]⟩
        · exact Or.inr ⟨hnil, by simp [removeFromFirst, hc, heq]⟩

/-- Creating a registry entry adds one subscriber to the item the name
resolves to. -/
theorem resolvers_insert (items : List String) (name : String) (cs : List Nat)
    (curves : List (String × List Nat)) (i : String) :
    resolvers items (insertCurveEntry name cs curves) i =
      resolvers items curves i +
        (if resolveItem items name = some i then 1 else 0) := by
  unfold resolvers
  rw [List.Perm.countP_eq _ ((insertCurveEntry_perm name cs curves).map
    (fun e => e.1))]
  simp only [List.map_cons, List.countP_cons]
  by_cases hi : resolveItem items name = some i
  · simp [hi]
  · simp [hi]

/-- Replacing one entry's curve set does not change any subscriber count. -/
theorem resolvers_set_update (items : List String)
    (pre post : List (String × List Nat)) (i : String) (a : String)
    (s1 s2 : List Nat) :
    resolvers items (pre ++ (a, s1) :: post) i =
      resolvers items (pre ++ (a, s2) :: post) i := by
  unfold resolvers
  simp

/-- Deleting one registry entry removes one subscriber from the item its
name resolves to. -/
theorem resolvers_append_cons (items : List String)
    (pre post : List (String × List Nat)) (e : String × List Nat)
    (i : String) :
    resolvers items (pre ++ e :: post) i =
      resolvers items (pre ++ post) i +
        (if resolveItem items e.1 = some i then 1 else 0) := by
  unfold resolvers
  simp only [List.map_append, List.map_cons, List.countP_append,
    List.countP_cons]
  by_cases hi : resolveItem items e.1 = some i
  · simp [hi]
    omega
  · simp [hi]

/-- A registered name resolving to an item witnesses a positive subscriber
count for that item. -/
theorem resolvers_pos (items : List String)
    (curves : List (String × List Nat)) (i name : String)
    (hmem : name ∈ curves.map (fun e => e.1))
    (hres : resolveItem items name = some i) :
    1 ≤ resolvers items curves i := by
  unfold resolvers
  have : 0 < (curves.map (fun e => e.1)).countP
      (fun n => resolveItem items n == some i) :=
    List.countP_pos_iff.mpr ⟨name, hmem, by simp [hres]⟩
  omega

/-- Structure of `resolveItem`: the resolved item is a remote item whose
path equals the name's path and whose query is a prefix of the name's
query. -/
theorem resolveItem_spec (items : List String) (name i : String)
    (h : resolveItem items name = some i) :
    i ∈ items ∧ ∃ u iu, parseURI name = some u ∧ parseURI i = some iu ∧
      iu.path = u.path ∧ strStarts iu.query u.query = true := by
  rw [resolveItem] at h
  rcases hp : parseURI name with _ | u
  · rw [hp] at h
    exact Option.noConfusion h
  · rw [hp] at h
    have hmem := List.mem_of_find?_eq_some h
    have hpred := List.find?_some h
    rw [matchesItem] at hpred
    rcases hq : parseURI i with _ | iu
    · rw [hq] at hpred
      exact Bool.noConfusion hpred
    · rw [hq] at hpred
      simp only [Bool.and_eq_true, decide_eq_true_eq] at hpred
      exact ⟨hmem, u, iu, rfl, rfl, hpred.1.symm, hpred.2⟩

/-- The full handler invariant over registry operations: the filter-side
invariant with `F` the actual per-item subscriber counts of the registry,
no empty curve set ever stored, and distinct registry keys. -/
structure CurvesInv (items : List String) (sv : String) (st : HandlerState) :
    Prop where
  spec : CountsSpec sv (resolvers items st.curves) st
  nonempty : ∀ e ∈ st.curves, e.2 ≠ []
  keysNodup : (st.curves.map (fun e => e.1)).Nodup

/-- `AddCurve` preserves the handler invariant. -/
theorem AddCurve_inv (items : List String) (sv : String) (alive : Nat → Bool)
    (name : String) (c : Nat) (st : HandlerState)
    (h : CurvesInv items sv st) :
    CurvesInv items sv (AddCurve items alive name c st) := by
  rw [AddCurve]
  by_cases ha : alive c = false
  · rw [if_pos ha]
    exact h
  · rw [if_neg ha]
    rcases hl : st.curves.lookup name with _ | s
    · have hnotmem : name ∉ st.curves.map (fun e => e.1) :=
        (lookup_eq_none_iff _ _).mp hl
      have hspec1 : CountsSpec sv (resolvers items st.curves)
          { st with curves := insertCurveEntry name [c] st.curves } :=
        ⟨h.spec.keysMatch, h.spec.filterNodup, h.spec.counts,
          h.spec.zeroOut, h.spec.simTimeMem⟩
      obtain ⟨hspec2, hcur2, _, _⟩ := AddItemToFilter_countsSpec items sv name
        { st with curves := insertCurveEntry name [c] st.curves }
        (resolvers items st.curves) hspec1
      refine ⟨?_, ?_, ?_⟩
      · have hfun : resolvers items (AddItemToFilter items name
            { st with curves := insertCurveEntry name [c] st.curves }).curves =
            (fun i => resolvers items st.curves i +
              (if resolveItem items name = some i then 1 else 0)) := by
          rw [hcur2]
          funext i
          exact resolvers_insert items name [c] st.curves i
        rw [hfun]
        exact hspec2
      · intro e he
        rw [hcur2] at he
        rw [(insertCurveEntry_perm name [c] st.curves).mem_iff] at he
        rcases List.mem_cons.mp he with rfl | hmem
        · simp
        · exact h.nonempty e hmem
      · rw [hcur2]
        rw [((insertCurveEntry_perm name [c] st.curves).map
          (fun e => e.1)).nodup_iff]
        exact List.Nodup.cons hnotmem h.keysNodup
    · show CurvesInv items sv (if c ∈ s then st
        else { st with curves := updateCurveEntry name c st.curves })
      by_cases hc : c ∈ s
      · rw [if_pos hc]
        exact h
      · rw [if_neg hc]
        refine ⟨?_, ?_, ?_⟩
        · have hfun : resolvers items (updateCurveEntry name c st.curves) =
              resolvers items st.curves := by
            funext i
            unfold resolvers
            rw [keys_updateCurveEntry]
          show CountsSpec sv
            (resolvers items (updateCurveEntry name c st.curves))
            { st with curves := updateCurveEntry name c st.curves }
          rw [hfun]
          exact ⟨h.spec.keysMatch, h.spec.filterNodup, h.spec.counts,
            h.spec.zeroOut, h.spec.simTimeMem⟩
        · intro e he
          rcases mem_updateCurveEntry name c st.curves e he with hmem | ⟨e2, he2, rfl⟩
          · exact h.nonempty e hmem
          · simp
        · show ((updateCurveEntry name c st.curves).map (fun e => e.1)).Nodup
          rw [keys_updateCurveEntry]
          exact h.keysNodup

/-- `RemoveCurve` preserves the handler invariant. -/
theorem RemoveCurve_inv (items : List String) (sv : String)
    (alive : Nat → Bool) (c : Nat) (st : HandlerState)
    (h : CurvesInv items sv st) :
    CurvesInv items sv (RemoveCurve items alive c st) := by
  rw [RemoveCurve]
  by_cases ha : alive c = false
  · rw [if_pos ha]
    exact h
  · rw [if_neg ha]
    rcases removeFromFirst_spec c st.curves with ⟨heq, _⟩ |
      ⟨pre, e, post, hl, hc, hcase⟩
    · simp only [heq]
      exact h
    · rcases hcase with ⟨hne2, heq⟩ | ⟨hnil, heq⟩
      · simp only [heq]
        refine ⟨?_, ?_, ?_⟩
        · have hfun : resolvers items (pre ++ (e.1, e.2.erase c) :: post) =
              resolvers items st.curves := by
            funext i
            rw [hl]
            exact resolvers_set_update items pre post i e.1 (e.2.erase c) e.2
          show CountsSpec sv
            (resolvers items (pre ++ (e.1, e.2.erase c) :: post))
            { st with curves := pre ++ (e.1, e.2.erase c) :: post }
          rw [hfun]
          exact ⟨h.spec.keysMatch, h.spec.filterNodup, h.spec.counts,
            h.spec.zeroOut, h.spec.simTimeMem⟩
        · intro e2 he2
          rcases List.mem_append.mp he2 with hmem | hmem
          · exact h.nonempty e2 (by rw [hl]; exact List.mem_append_left _ hmem)
          · rcases List.mem_cons.mp hmem with rfl | hmem2
            · exact hne2
            · exact h.nonempty e2
                (by rw [hl]
                    exact List.mem_append_right _ (List.mem_cons_of_mem e hmem2))
        · show ((pre ++ (e.1, e.2.erase c) :: post).map (fun e => e.1)).Nodup
          have : (pre ++ (e.1, e.2.erase c) :: post).map (fun e => e.1) =
              (pre ++ e :: post).map (fun e => e.1) := by
            simp
          rw [this, ← hl]
          exact h.keysNodup
      · simp only [heq]
        have hemem : e ∈ st.curves := by
          rw [hl]
          exact List.mem_append_right _ (List.mem_cons_self e post)
        have hspec1 : CountsSpec sv (resolvers items st.curves)
            { st with curves := pre ++ post } :=
          ⟨h.spec.keysMatch, h.spec.filterNodup, h.spec.counts,
            h.spec.zeroOut, h.spec.simTimeMem⟩
        have hge : ∀ j, resolveItem items e.1 = some j →
            1 ≤ resolvers items st.curves j := by
          intro j hj
          exact resolvers_pos items st.curves j e.1
            (List.mem_map.mpr ⟨e, hemem, rfl⟩) hj
        obtain ⟨hspec2, hcur2⟩ := RemoveItemFromFilter_countsSpec items sv e.1
          { st with curves := pre ++ post } (resolvers items st.curves)
          hspec1 hge
        refine ⟨?_, ?_, ?_⟩
        · have hfun : resolvers items (RemoveItemFromFilter items e.1
              { st with curves := pre ++ post }).curves =
              (fun i => resolvers items st.curves i -
                (if resolveItem items e.1 = some i then 1 else 0)) := by
            rw [hcur2]
            funext i
            show resolvers items (pre ++ post) i =
              resolvers items st.curves i -
                (if resolveItem items e.1 = some i then 1 else 0)
            have hrac := resolvers_append_cons items pre post e i
            rw [← hl] at hrac
            omega
          rw [hfun]
          exact hspec2
        · intro e2 he2
          rw [hcur2] at he2
          rcases List.mem_append.mp he2 with hmem | hmem
          · exact h.nonempty e2 (by rw [hl]; exact List.mem_append_left _ hmem)
          · exact h.nonempty e2
              (by rw [hl]
                  exact List.mem_append_right _ (List.mem_cons_of_mem e hmem))
        · rw [hcur2]
          show ((pre ++ post).map (fun e => e.1)).Nodup
          have hsub : List.Sublist ((pre ++ post).map (fun e => e.1))
              ((pre ++ e :: post).map (fun e => e.1)) := by
            simp only [List.map_append, List.map_cons]
            exact List.Sublist.append_left (List.sublist_cons_self _ _) _
          have := h.keysNodup
          rw [hl] at this
          exact this.sublist hsub

/-- The handler invariant holds after any sequence of registry operations
from the post-setup state. -/
theorem runCurveOps_inv (items : List String) (sv : String)
    (ops : List CurveOp) :
    CurvesInv items sv (runCurveOps items (setupState sv) ops) := by
  suffices haux : ∀ st, CurvesInv items sv st →
      CurvesInv items sv (runCurveOps items st ops) by
    apply haux
    refine ⟨⟨?_, ?_, ?_, ?_, ?_⟩, ?_, ?_⟩
    · intro k
      simp [setupState]
    · simp [setupState]
    · intro i hi
      simp only [setupState, List.mem_singleton] at hi
      subst hi
      simp [setupState, countLookup, List.lookup, resolvers]
    · intro i hi
      simp [resolvers, setupState]
    · simp [setupState]
    · intro e he
      simp [setupState] at he
    · simp [setupState]
  induction ops with
  | nil => exact fun st h => h
  | cons op rest ih =>
    intro st h
    have hstep : CurvesInv items sv (applyCurveOp items st op) := by
      cases op with
      | add name c alive => exact AddCurve_inv items sv alive name c st h
      | remove c alive => exact RemoveCurve_inv items sv alive c st h
    exact ih (applyCurveOp items st op) hstep

/-- C4 (amended): after any sequence of `AddCurve`/`RemoveCurve` operations,
every registry name that resolves to a remote item has that item in the
filter, the item's path equals the name's path with the item's query a
prefix of (or equal to) the name's query, and the item's reference count
equals the number of currently-registered distinct names resolving to it
plus one when the item is the permanently subscribed sim-time variable. -/
theorem C4_filter_count_tracks_entries (items : List String) (sv : String)
    (ops : List CurveOp) (name i : String)
    (hmem : name ∈
      (runCurveOps items (setupState sv) ops).curves.map (fun e => e.1))
    (hres : resolveItem items name = some i) :
    i ∈ (runCurveOps items (setupState sv) ops).introspectFilter ∧
    countLookup
        (runCurveOps items (setupState sv) ops).introspectFilterCount i =
      (resolvers items (runCurveOps items (setupState sv) ops).curves i : Int)
        + (if i = sv then 1 else 0) ∧
    ∃ u iu, parseURI name = some u ∧ parseURI i = some iu ∧
      iu.path = u.path ∧ strStarts iu.query u.query = true := by
  have hinv := runCurveOps_inv items sv ops
  have hpos : 1 ≤ resolvers items
      (runCurveOps items (setupState sv) ops).curves i :=
    resolvers_pos items _ i name hmem hres
  have hifil : i ∈ (runCurveOps items (setupState sv) ops).introspectFilter := by
    by_contra hni
    have := hinv.spec.zeroOut i hni
    omega
  obtain ⟨_, u, iu, hu, hiu, hpath, hq⟩ := resolveItem_spec items name i hres
  exact ⟨hifil, hinv.spec.counts i hifil, u, iu, hu, hiu, hpath, hq⟩

/-- C4 counterexample: adding a curve under the sim-time variable name
itself leaves that item's reference count at 2 while only one registry
entry resolves to it — the count includes the setup-time sim-time
subscription, so it does not equal the number of registry entries. -/
theorem C4_counterexample_simtime_name :
    countLookup (runCurveOps ["data://world/default?p=sim_time"]
        (setupState "data://world/default?p=sim_time")
        [CurveOp.add "data://world/default?p=sim_time" 0
          (fun _ => true)]).introspectFilterCount
      "data://world/default?p=sim_time" = 2 ∧
    resolvers ["data://world/default?p=sim_time"]
      (runCurveOps ["data://world/default?p=sim_time"]
        (setupState "data://world/default?p=sim_time")
        [CurveOp.add "data://world/default?p=sim_time" 0
          (fun _ => true)]).curves
      "data://world/default?p=sim_time" = 1 :=
  ⟨rfl, rfl⟩

/-- Witness for C4's amended statement after one add operation. -/
theorem C4_filter_count_tracks_entries_witness :
    "data://robot?p=pose" ∈
      (runCurveOps ["data://robot?p=pose"]
        (setupState "data://world/default?p=sim_time")
        [CurveOp.add "data://robot?p=pose/position/x" 3
          (fun _ => true)]).introspectFilter ∧
    countLookup (runCurveOps ["data://robot?p=pose"]
        (setupState "data://world/default?p=sim_time")
        [CurveOp.add "data://robot?p=pose/position/x" 3
          (fun _ => true)]).introspectFilterCount "data://robot?p=pose" =
      (resolvers ["data://robot?p=pose"]
        (runCurveOps ["data://robot?p=pose"]
          (setupState "data://world/default?p=sim_time")
          [CurveOp.add "data://robot?p=pose/position/x" 3
            (fun _ => true)]).curves "data://robot?p=pose" : Int)
        + (if "data://robot?p=pose" = "data://world/default?p=sim_time"
            then 1 else 0) ∧
    ∃ u iu, parseURI "data://robot?p=pose/position/x" = some u ∧
      parseURI "data://robot?p=pose" = some iu ∧
      iu.path = u.path ∧ strStarts iu.query u.query = true :=
  C4_filter_count_tracks_entries ["data://robot?p=pose"]
    "data://world/default?p=sim_time"
    [CurveOp.add "data://robot?p=pose/position/x" 3 (fun _ => true)]
    "data://robot?p=pose/position/x" "data://robot?p=pose"
    (by decide) rfl

/-- C6: after any sequence of `AddCurve`/`RemoveCurve` operations, every
registry entry maps to a non-empty curve set (a removal that empties a set
deletes the entry, and releases its filter item, within that same
operation). -/
theorem C6_registry_never_empty (items : List String) (sv : String)
    (ops : List CurveOp) :
    ∀ e ∈ (runCurveOps items (setupState sv) ops).curves, e.2 ≠ [] :=
  (runCurveOps_inv items sv ops).nonempty

/-- Witness for C6 after adding two curves under one name and removing
one. -/
theorem C6_registry_never_empty_witness :
    (("data://a?p=b", [2]) : String × List Nat).2 ≠ [] :=
  C6_registry_never_empty ["data://a?p=b"] "data://world/default?p=sim_time"
    [CurveOp.add "data://a?p=b" 1 (fun _ => true),
     CurveOp.add "data://a?p=b" 2 (fun _ => true),
     CurveOp.remove 1 (fun _ => true)]
    ("data://a?p=b", [2]) (by decide)
